import Mathlib

/-!
Shallow embedding of the table-rendering engine in `Project 2/table.py`
(class `Table` with its `FormatSpec` enum), together with theorems about
the width-resolution algorithm (`column_widths` / `_redistribute_widths`),
the row renderer (`lines_for_row`) and the constructor (`Table.__init__`).

Python strings are modelled as Lean `String` (Python `len` counts code
points, matching `String.length`), Python `int` as `Int`, raised
exceptions as `Except PyErr`, and the unbounded `while` loop of
`_redistribute_widths` as a fuel-indexed step function `loopGo` whose
fuel-exhaustion case is the `none` result of an `Option`.
-/

namespace PyTable

/-- Kinds of Python exceptions raised by the embedded code paths.
`outOfFuel` is not a Python exception: it is the marker produced when the
fuel of the embedded redistribution loop runs out (shown unreachable for
well-formed tables). -/
inductive PyErr where
  | typeError
  | indexError
  | valueError
  | assertionError
  | outOfFuel
  deriving DecidableEq

/-- A dynamically typed Python value, as far as the operands of `+` and
`len` appearing in `table.py` need: strings and integers. -/
inductive PyVal where
  | str (s : String)
  | int (n : Int)
  deriving DecidableEq

/-- Python `+`: concatenates two strings, adds two integers, and raises
`TypeError` on a mixed application such as `"..." + 3`. -/
def pyAdd : PyVal → PyVal → Except PyErr PyVal
  | .str a, .str b => .ok (.str (a ++ b))
  | .int a, .int b => .ok (.int (a + b))
  | _, _ => .error .typeError

/-- Python `len`: length of a string; raises `TypeError` on an integer. -/
def pyLen : PyVal → Except PyErr Nat
  | .str s => .ok s.length
  | .int _ => .error .typeError

/-- The `FormatSpec` enum of `table.py`: `'p'`, `'w'`, `'t'`. -/
inductive FormatSpec where
  | PREFORMATTED
  | WRAPPED
  | TRUNCATED
  deriving DecidableEq, Inhabited

/-- The value-to-member conversion `FormatSpec(c)` of the Python enum. -/
def FormatSpec.ofChar : Char → Option FormatSpec
  | 'p' => some .PREFORMATTED
  | 'w' => some .WRAPPED
  | 't' => some .TRUNCATED
  | _ => none

/-- Python negative-index access `l[-1]`, i.e. `l[len(l) - 1]`, with a
default for the (never exercised) empty case. -/
def pyLast (l : List α) (d : α) : α := l.getD (l.length - 1) d

/-- Python `max` over a list of naturals; the source only applies it to
nonempty lists, where folding from `0` agrees with Python `max`. -/
def maxNat (l : List Nat) : Nat := l.foldl Nat.max 0

/-- Python string repetition `s * n` (for `n ≤ 0` Python yields `""`,
which callers model by passing `Int.toNat` of the factor). -/
def strRepeat (s : String) : Nat → String
  | 0 => ""
  | n + 1 => s ++ strRepeat s n

/-- Python slice `s[:k]`: for `k ≥ 0` the first `min k (len s)`
characters, for `k < 0` everything up to `max (len s + k) 0`. -/
def pySliceTo (s : String) (k : Int) : String :=
  if k < 0 then String.mk (s.data.take ((s.length : Int) + k).toNat)
  else String.mk (s.data.take k.toNat)

/-- The f-string field `f"{v:<{w}}"`: left-justify `v` in `w` columns.
A negative computed width makes the format specifier start with `-`,
which Python rejects with `ValueError` for string fields. -/
def pyFormatLJ (v : String) (w : Int) : Except PyErr String :=
  if w < 0 then .error .valueError
  else .ok (v ++ String.mk (List.replicate (w.toNat - v.length) ' '))

/-- Whether `pat` is an initial run of `l` (used to model `str.split`). -/
def listStartsWith : List Char → List Char → Bool
  | [], _ => true
  | _ :: _, [] => false
  | a :: as, b :: bs => a = b && listStartsWith as bs

/-- Worker for Python `str.split(sep)`: scans left to right, emitting a
segment at each non-overlapping occurrence of `sep`. Fuel-indexed; a fuel
of `length + 1` always suffices. The `sep ≠ []` guard mirrors Python's
rejection of an empty separator (callers never pass one: the constructor
replaces falsy separators by the nonempty defaults). -/
def pySplitGo (sep : List Char) : Nat → List Char → List Char → List (List Char)
  | 0, cur, _ => [cur.reverse]
  | fuel + 1, cur, l =>
    if sep ≠ [] ∧ listStartsWith sep l then
      cur.reverse :: pySplitGo sep fuel [] (l.drop sep.length)
    else
      match l with
      | [] => [cur.reverse]
      | c :: rest => pySplitGo sep fuel (c :: cur) rest

/-- Python `s.split(sep)` for a nonempty separator string. -/
def pySplit (s sep : String) : List String :=
  (pySplitGo sep.data (s.data.length + 1) [] s.data).map String.mk

/-- Hard-break a word into pieces of at most `width` characters
(fuel-indexed on the character count). -/
def chunksGo (width : Nat) : Nat → List Char → List (List Char)
  | 0, _ => []
  | _, [] => []
  | fuel + 1, l => l.take width :: chunksGo width fuel (l.drop width)

/-- Pieces of a word after hard-breaking at `width` (identity when the
word already fits). -/
def chunkify (width : Nat) (w : String) : List String :=
  if w.length ≤ width then [w]
  else (chunksGo width w.data.length w.data).map String.mk

/-- Greedy line filling over a list of word pieces, each of length at
most `width`: pack as many space-separated pieces per line as fit. -/
def wrapGreedy (width : Nat) : List String → String → List String
  | [], cur => if cur = "" then [] else [cur]
  | w :: ws, cur =>
    if cur = "" then wrapGreedy width ws w
    else if cur.length + 1 + w.length ≤ width then
      wrapGreedy width ws (cur ++ " " ++ w)
    else cur :: wrapGreedy width ws w

/-- Model of Python `textwrap.wrap(val, width)` as used by the renderer:
`ValueError` for `width ≤ 0` (the check `_wrap_chunks` performs first),
otherwise whitespace-separated words packed greedily with words longer
than the width hard-broken; a value without words yields no lines. The
finer`textwrap` behaviours (hyphen splitting, whitespace munging,
filling the tail of a partly filled line with the head of a long word)
are outside the scope of this model; no theorem below depends on the
shape of wrapped output. -/
def textwrapWrap (s : String) (width : Int) : Except PyErr (List String) :=
  if width ≤ 0 then .error .valueError
  else
    .ok (wrapGreedy width.toNat
      (((pySplit s " ").filter (fun w => w ≠ "")).flatMap (chunkify width.toNat)) "")

/-- Python `itertools.zip_longest(*cols, fillvalue="")`: the transpose of
`cols` padded with `""` up to the longest column. -/
def zipLongest (cols : List (List String)) : List (List String) :=
  (List.range (maxNat (cols.map List.length))).map
    (fun i => cols.map (fun c => c.getD i ""))

/-- Effectful map over a list in the `Except` monad, stopping at the
first raised exception (the way a Python loop or comprehension does). -/
def mapME (f : α → Except PyErr β) : List α → Except PyErr (List β)
  | [] => .ok []
  | a :: l =>
    match f a with
    | .error e => .error e
    | .ok b =>
      match mapME f l with
      | .error e => .error e
      | .ok bs => .ok (b :: bs)

/-! ## The Table data model (`Table.__init__` fields) -/

/-- State of a constructed `Table` instance: the fields set by
`__init__`. `column_widths_cache` is the `_column_widths` backing list of
the lazily cached `column_widths` property; `[]` means "not yet
computed" (Python tests its truthiness), any other value is either the
cached result or a manual override installed through the setter. -/
structure Table where
  column_names : List String
  data : List (List String)
  head_underline : String
  col_sep : String
  format_spec : List FormatSpec
  max_width : Int
  preformat_sep : String
  dots : String
  column_widths_cache : List Int
  deriving DecidableEq

/-- Construction invariants guaranteed by `Table.__init__` for every
instance that survives its asserts and defaulting: each data row is as
long as the header list, the format spec matches the column count, the
separators are nonempty (falsy arguments are replaced by the nonempty
defaults), the head underline is one character, and the maximum width is
positive. -/
def WF (t : Table) : Prop :=
  (∀ r ∈ t.data, r.length = t.column_names.length) ∧
  t.format_spec.length = t.column_names.length ∧
  t.col_sep ≠ "" ∧
  t.preformat_sep ≠ "" ∧
  t.head_underline.length = 1 ∧
  0 < t.max_width

instance (t : Table) : Decidable (WF t) := by
  unfold WF; infer_instance

/-! ## Width resolution (`column_widths` and `_redistribute_widths`) -/

/-- The tuple `columns = tuple(zip(self._column_names, *self._data))`:
one list per column, holding the header name followed by that column's
value in each row, cut off as soon as any of the zipped lists runs out
(Python `zip` semantics). -/
def pyZipCols : List String → List (List String) → List (List String)
  | [], _ => []
  | h :: tl, data =>
    if data.any List.isEmpty then []
    else (h :: data.map (fun r => r.headD "")) :: pyZipCols tl (data.map List.tail)

/-- Width of one column before redistribution (the body of the `for fmt,
column in zip(...)` loop in `column_widths`): for a `PREFORMATTED`
column, the longest segment after splitting every entry of the column
(the header included, since the header is the first element of
`column`) on the preformat separator; otherwise the longest entry. -/
def colNominal (fmt : FormatSpec) (col : List String) (preSep : String) : Nat :=
  match fmt with
  | .PREFORMATTED => maxNat ((col.flatMap (fun v => pySplit v preSep)).map String.length)
  | _ => maxNat (col.map String.length)

/-- The preliminary per-column widths appended to `self._column_widths`
by `column_widths` before `_redistribute_widths` runs (lines 137-148). -/
def nominalWidths (names : List String) (data : List (List String))
    (fmts : List FormatSpec) (preSep : String) : List Nat :=
  (fmts.zip (pyZipCols names data)).map (fun p => colNominal p.1 p.2 preSep)

/-- Nominal widths as the claim about step 1 of the Width Resolver words
them: per column, the maximum of (a) the header's full length and (b)
for Wrapped/Truncated columns the longest raw value, for Preformatted
columns the longest segment obtained by splitting every value (the
header is not split; its full length counts). Stated per column index
to compare with the transposed computation of the source. -/
def claimNominalWidths (names : List String) (data : List (List String))
    (fmts : List FormatSpec) (preSep : String) : List Nat :=
  (List.range names.length).map (fun j =>
    let hdr := names.getD j ""
    let vals := data.map (fun r => r.getD j "")
    match fmts.getD j .WRAPPED with
    | .PREFORMATTED =>
      Nat.max hdr.length
        (maxNat ((vals.flatMap (fun v => pySplit v preSep)).map String.length))
    | _ => Nat.max hdr.length (maxNat (vals.map String.length)))

/-- Nominal widths as the source actually computes them, worded per
column index: for a Preformatted column the header is split on the
preformat separator exactly like the values (the header is the first
element of the zipped column), so its segments count instead of its
full length; Wrapped/Truncated columns take the maximum of the header
length and the longest value. -/
def splitNominalWidths (names : List String) (data : List (List String))
    (fmts : List FormatSpec) (preSep : String) : List Nat :=
  (List.range names.length).map (fun j =>
    let hdr := names.getD j ""
    let vals := data.map (fun r => r.getD j "")
    match fmts.getD j .WRAPPED with
    | .PREFORMATTED =>
      maxNat (((hdr :: vals).flatMap (fun v => pySplit v preSep)).map String.length)
    | _ => Nat.max hdr.length (maxNat (vals.map String.length)))

/-- The per-instance data `_redistribute_widths` reads besides the
mutable `redistributed_widths` list: `_column_names`, `_format_spec`,
the nominal `_column_widths` computed just before the call, and
`_dots`. -/
structure RCtx where
  names : List String
  fmts : List FormatSpec
  noms : List Nat
  dots : String
  deriving DecidableEq

/-- The helper `column_is_wide_enough(width, header, format_spec,
nominal_width)`: `WRAPPED` compares against the header length,
`PREFORMATTED` against the nominal width, and `TRUNCATED` evaluates
`max(len(header), len(self._dots + 3))`, whose inner `+` applies Python
`+` to a string and the integer `3` and therefore raises `TypeError`. -/
def wideEnough (dots : String) (width : Int) (header : String)
    (fmt : FormatSpec) (nominal : Nat) : Except PyErr Bool :=
  match fmt with
  | .WRAPPED => .ok (decide ((header.length : Int) ≤ width))
  | .PREFORMATTED => .ok (decide ((nominal : Int) ≤ width))
  | .TRUNCATED =>
    match pyAdd (.str dots) (.int 3) with
    | .error e => .error e
    | .ok v =>
      match pyLen v with
      | .error e => .error e
      | .ok l => .ok (decide ((max header.length l : Int) ≤ width))

/-- Python `enumerate` over the current widths, starting at index `k`. -/
def enumFrom : Nat → List Int → List (Nat × Int)
  | _, [] => []
  | k, w :: l => (k, w) :: enumFrom (k + 1) l

/-- One step of the stable insertion producing the descending order of
`sorted(enumerate(widths), key=lambda t: t[1], reverse=True)`: a new
pair goes after every pair of greater or equal width, so pairs of equal
width keep their original index order, as Python's stable sort does. -/
def insortDesc (a : Nat × Int) : List (Nat × Int) → List (Nat × Int)
  | [] => [a]
  | b :: l => if b.2 < a.2 then a :: b :: l else b :: insortDesc a l

/-- The descending stable sort of the enumerated widths. -/
def sortDesc (l : List (Nat × Int)) : List (Nat × Int) :=
  l.foldl (fun acc a => insortDesc a acc) []

/-- The scan inside `next_reducable_column_idx`: sweep the sorted pairs
and stop at the first column that is wide enough; `none` models the
sentinel `-1` returned when no column qualifies. -/
def scanCols (ctx : RCtx) : List (Nat × Int) → Except PyErr (Option Nat)
  | [] => .ok none
  | p :: rest =>
    match wideEnough ctx.dots p.2 (ctx.names.getD p.1 "")
        (ctx.fmts.getD p.1 .WRAPPED) (ctx.noms.getD p.1 0) with
    | .error e => .error e
    | .ok true => .ok (some p.1)
    | .ok false => scanCols ctx rest

/-- `next_reducable_column_idx(widths)`. -/
def nextReducible (ctx : RCtx) (ws : List Int) : Except PyErr (Option Nat) :=
  scanCols ctx (sortDesc (enumFrom 0 ws))

/-- The `while` condition of the REDISTRIBUTE loop: continue (returning
the column to reduce) only when `next_reducable_column_idx` finds a
column and the last column is not yet wide enough; `ok none` means the
loop exits, an error propagates the raised exception. -/
def loopCond (ctx : RCtx) (ws : List Int) : Except PyErr (Option Nat) :=
  match nextReducible ctx ws with
  | .error e => .error e
  | .ok none => .ok none
  | .ok (some idx) =>
    match wideEnough ctx.dots (pyLast ws 0) (pyLast ctx.names "")
        (pyLast ctx.fmts .WRAPPED) (pyLast ctx.noms 0) with
    | .error e => .error e
    | .ok true => .ok none
    | .ok false => .ok (some idx)

/-- The loop body: `redistributed_widths[to_reduce] -= 1` followed by
`redistributed_widths[-1] += 1`, in that order. -/
def loopStep (ws : List Int) (idx : Nat) : List Int :=
  let ws1 := ws.set idx (ws.getD idx 0 - 1)
  ws1.set (ws1.length - 1) (pyLast ws1 0 + 1)

/-- Fuel-indexed unfolding of the REDISTRIBUTE `while` loop; `none`
records fuel exhaustion (never reached from `loopBound`, see the
termination theorem). -/
def loopGo (ctx : RCtx) : Nat → List Int → Option (Except PyErr (List Int))
  | 0, _ => none
  | fuel + 1, ws =>
    match loopCond ctx ws with
    | .error e => some (.error e)
    | .ok none => some (.ok ws)
    | .ok (some idx) => loopGo ctx fuel (loopStep ws idx)

/-- The width floor of the last column per its format mode; `0` for
`TRUNCATED`, whose floor check raises before the loop can iterate. -/
def lastFloor (ctx : RCtx) : Int :=
  match pyLast ctx.fmts .WRAPPED with
  | .WRAPPED => ((pyLast ctx.names "").length : Int)
  | .PREFORMATTED => ((pyLast ctx.noms 0 : Nat) : Int)
  | .TRUNCATED => 0

/-- Fuel that always suffices for the loop: each iteration raises the
last column's width by one toward its fixed floor. -/
def loopBound (ctx : RCtx) (ws : List Int) : Nat :=
  (lastFloor ctx - pyLast ws 0).toNat + 1

/-- The total width `sum(self.column_widths) + len(self._col_sep) *
(len(self.column_widths) - 1)` at the moment `_redistribute_widths`
calls `_total_width()` (the cache then holds the nominal widths). -/
def totalNominal (noms : List Nat) (sepLen : Nat) : Int :=
  Int.ofNat noms.sum + (sepLen : Int) * ((noms.length : Int) - 1)

/-- `_redistribute_widths`: the naive last-column shrink (an unclamped
`min` with the remaining budget, minus the extra `len(col_sep) - 1`
term), then the REDISTRIBUTE loop. On a table without columns the
access `redistributed_widths[-1]` raises `IndexError`. -/
def redistribute (ctx : RCtx) (maxW : Int) (sepLen : Nat) : Except PyErr (List Int) :=
  if ctx.noms = [] then .error .indexError
  else
    let ws : List Int := ctx.noms.map Int.ofNat
    let lastV := pyLast ws 0
    let shrunk := ws.set (ws.length - 1)
      (min lastV (maxW - (totalNominal ctx.noms sepLen - lastV) - ((sepLen : Int) - 1)))
    match loopGo ctx (loopBound ctx shrunk) shrunk with
    | some r => r
    | none => .error .outOfFuel

/-- The redistribution context a table supplies: its names, format
specs, nominal widths and ellipsis string. -/
def tableCtx (t : Table) : RCtx :=
  ⟨t.column_names, t.format_spec,
    nominalWidths t.column_names t.data t.format_spec t.preformat_sep, t.dots⟩

/-- The `column_widths` property: return the backing list when it is
truthy (already computed, or manually overridden through the setter),
otherwise compute nominal widths and redistribute them. -/
def columnWidthsFn (t : Table) : Except PyErr (List Int) :=
  if t.column_widths_cache = [] then
    redistribute (tableCtx t) t.max_width t.col_sep.length
  else .ok t.column_widths_cache

/-! ## Row rendering (`lines_for_row`) -/

/-- The per-value `match fmt` block of `lines_for_row` (lines 181-191):
`PREFORMATTED` splits on the preformat separator, `WRAPPED` word-wraps
to the width, `TRUNCATED` replaces an overlong value by its slice
`val[:(width - len(dots))]` followed by the ellipsis and keeps a fitting
value unchanged. -/
def formatCell (fmt : FormatSpec) (val : String) (width : Int)
    (preSep dots : String) : Except PyErr (List String) :=
  match fmt with
  | .PREFORMATTED => .ok (pySplit val preSep)
  | .WRAPPED => textwrapWrap val width
  | .TRUNCATED =>
    if (val.length : Int) > width then
      .ok [pySliceTo val (width - (dots.length : Int)) ++ dots]
    else .ok [val]

/-- Left-justify each cell text of one physical line to its column's
width: the generator `f"{v:<{w}}" for (v, w) in zip(line, widths)`
before the separator join. -/
def padRow (line : List String) (ws : List Int) : Except PyErr (List String) :=
  mapME (fun p => pyFormatLJ p.1 p.2) (line.zip ws)

/-- Format every value of a row, square off and transpose the resulting
column line lists, and left-justify each cell: the per-line lists of
column segments that `lines_for_row` joins with the separator. -/
def rowCore (values : List String) (ws : List Int) (fmts : List FormatSpec)
    (preSep dots : String) : Except PyErr (List (List String)) :=
  match mapME (fun p => formatCell p.2.2 p.1 p.2.1 preSep dots)
      (values.zip (ws.zip fmts)) with
  | .error e => .error e
  | .ok cols => mapME (fun line => padRow line ws) (zipLongest cols)

/-- The header underline: `col_sep.join(head_underline * w for w in
widths)` (string repetition clamps a negative width to the empty
string, as Python does). -/
def underlineLine (t : Table) (ws : List Int) : String :=
  String.intercalate t.col_sep (ws.map (fun w => strRepeat t.head_underline w.toNat))

/-- `lines_for_row(row_idx)`: a negative index selects the header row
(and appends the underline line); a non-negative index selects the data
row, raising `IndexError` past the end before any widths are computed.
Each kept line is the separator join of its padded segments. -/
def linesForRowFn (t : Table) (i : Int) : Except PyErr (List String) :=
  match (if i < 0 then .ok t.column_names
         else match t.data[i.toNat]? with
              | some v => .ok v
              | none => .error .indexError : Except PyErr (List String)) with
  | .error e => .error e
  | .ok values =>
    match columnWidthsFn t with
    | .error e => .error e
    | .ok ws =>
      match rowCore values ws t.format_spec t.preformat_sep t.dots with
      | .error e => .error e
      | .ok segLines =>
        let row := segLines.map (String.intercalate t.col_sep)
        if i < 0 then .ok (row ++ [underlineLine t ws])
        else .ok row

/-- `Table.headers()`, defined in the source as `lines_for_row(-1)`. -/
def headersFn (t : Table) : Except PyErr (List String) := linesForRowFn t (-1)

/-! ## Construction (`Table.__init__`) -/

/-- Python truthiness of an optional string argument: `None` and `""`
are falsy. -/
def strFalsy : Option String → Bool
  | none => true
  | some s => s = ""

/-- The `x or default` idiom on an optional string argument. -/
def strOr (o : Option String) (d : String) : String :=
  match o with
  | none => d
  | some s => if s = "" then d else s

/-- `Table.__init__`: the five asserts in source order, then the field
assignments with their `or`-defaulting. `termCols` is the column count
reported by `shutil.get_terminal_size((100, 24))` for this run; the
default maximum width is `min(100, termCols)`. Note that `max_width=0`
is falsy, so it passes the assert `(not max_width) or (max_width > 0)`
and is then silently replaced by the default. -/
def initTable (column_names : List String) (data : List (List String))
    (head_underline col_sep format_str : Option String) (max_width : Option Int)
    (preformat_sep dots : Option String) (termCols : Nat) : Except PyErr Table :=
  if ¬ (∀ r ∈ data, r.length = column_names.length) then .error .assertionError
  else if ¬ (strFalsy format_str = true ∨
      (format_str.getD "").length = column_names.length) then .error .assertionError
  else if ¬ (strFalsy format_str = true ∨
      ∀ c ∈ (format_str.getD "").data, (FormatSpec.ofChar c).isSome = true) then
    .error .assertionError
  else if ¬ (strFalsy head_underline = true ∨
      (head_underline.getD "").length = 1) then .error .assertionError
  else if ¬ ((max_width = none ∨ max_width = some 0) ∨
      ∃ m, max_width = some m ∧ 0 < m) then .error .assertionError
  else
    .ok
      { column_names := column_names
        data := data
        head_underline := strOr head_underline " "
        col_sep := strOr col_sep " "
        format_spec :=
          if strFalsy format_str then
            List.replicate column_names.length .WRAPPED
          else (format_str.getD "").data.map
            (fun c => (FormatSpec.ofChar c).getD .WRAPPED)
        max_width :=
          match max_width with
          | none => min 100 (termCols : Int)
          | some m => if m = 0 then min 100 (termCols : Int) else m
        preformat_sep := strOr preformat_sep ", "
        dots := strOr dots "..."
        column_widths_cache := [] }

/-! ## Concrete tables exercising the edge cases under analysis -/

/-- Two Wrapped columns, no data rows, two-character separator, and a
maximum width exactly equal to the total nominal width of 4. -/
def sepTwoTable : Table :=
  { column_names := ["a", "b"]
    data := []
    head_underline := " "
    col_sep := ", "
    format_spec := [.WRAPPED, .WRAPPED]
    max_width := 4
    preformat_sep := ", "
    dots := "..."
    column_widths_cache := [] }

/-- Two Wrapped columns whose nominal widths (2 and 2) exceed the
maximum width 1 by more than the last column can absorb. -/
def negWidthTable : Table :=
  { column_names := ["ab", "cd"]
    data := []
    head_underline := " "
    col_sep := " "
    format_spec := [.WRAPPED, .WRAPPED]
    max_width := 1
    preformat_sep := ", "
    dots := "..."
    column_widths_cache := [] }

/-- A single Truncated column whose width has been manually overridden
to 1 through the `column_widths` setter (smaller than the ellipsis). -/
def overrideTruncTable : Table :=
  { column_names := ["h"]
    data := [["abcdef"]]
    head_underline := " "
    col_sep := " "
    format_spec := [.TRUNCATED]
    max_width := 100
    preformat_sep := ", "
    dots := "..."
    column_widths_cache := [1] }

/-- Two Preformatted columns where redistribution reduces the first
column below its five-character segment "xxxxx". -/
def preOverflowTable : Table :=
  { column_names := ["A", "B"]
    data := [["xxxxx", "yy"]]
    head_underline := "-"
    col_sep := " "
    format_spec := [.PREFORMATTED, .PREFORMATTED]
    max_width := 6
    preformat_sep := ", "
    dots := "..."
    column_widths_cache := [] }

/-- A single column whose format mode is Truncated, widths not
overridden. -/
def truncLastTable : Table :=
  { column_names := ["h"]
    data := []
    head_underline := " "
    col_sep := " "
    format_spec := [.TRUNCATED]
    max_width := 100
    preformat_sep := ", "
    dots := "..."
    column_widths_cache := [] }

/-- A one-column Preformatted table with one data row, used to exercise
header rendering and out-of-range indexing. -/
def headerIdxTable : Table :=
  { column_names := ["ab"]
    data := [["x"]]
    head_underline := " "
    col_sep := " "
    format_spec := [.PREFORMATTED]
    max_width := 100
    preformat_sep := ", "
    dots := "..."
    column_widths_cache := [] }

/-- A minimal table used to land the loop-termination bound on a
concrete state. -/
def smallCtx : RCtx := ⟨["a"], [.WRAPPED], [1], "..."⟩

/-! ## List and arithmetic auxiliary lemmas -/

theorem getD_set_self {α} (l : List α) (i : Nat) (v d : α) (h : i < l.length) :
    (l.set i v).getD i d = v := by
  induction l generalizing i with
  | nil => simp at h
  | cons a l ih =>
    cases i with
    | zero => rfl
    | succ i => exact ih i (by simpa using h)

theorem getD_set_ne {α} (l : List α) (i j : Nat) (v d : α) (h : i ≠ j) :
    (l.set i v).getD j d = l.getD j d := by
  induction l generalizing i j with
  | nil => rfl
  | cons a l ih =>
    cases i with
    | zero =>
      cases j with
      | zero => exact absurd rfl h
      | succ j => rfl
    | succ i =>
      cases j with
      | zero => rfl
      | succ j => exact ih i j (fun hh => h (by omega))

theorem set_getD_self {α} (l : List α) (i : Nat) (d : α) (h : i < l.length) :
    l.set i (l.getD i d) = l := by
  induction l generalizing i with
  | nil => rfl
  | cons a l ih =>
    cases i with
    | zero => rfl
    | succ i => exact congrArg (List.cons a) (ih i (by simpa using h))

theorem getD_eq_getElem' {α} (l : List α) (i : Nat) (d : α) (h : i < l.length) :
    l.getD i d = l[i] := by
  induction l generalizing i with
  | nil => simp at h
  | cons a l ih =>
    cases i with
    | zero => rfl
    | succ i => exact ih i (by simpa using h)

theorem getD_mem {α} (l : List α) (i : Nat) (d : α) (h : i < l.length) :
    l.getD i d ∈ l := by
  induction l generalizing i with
  | nil => simp at h
  | cons a l ih =>
    cases i with
    | zero => exact List.mem_cons_self a l
    | succ i => exact List.mem_cons_of_mem a (ih i (by simpa using h))

theorem getD_map_ofNat (l : List Nat) (i : Nat) :
    (l.map Int.ofNat).getD i 0 = ((l.getD i 0 : Nat) : Int) := by
  induction l generalizing i with
  | nil => rfl
  | cons a l ih =>
    cases i with
    | zero => rfl
    | succ i => exact ih i

theorem foldl_max_eq (l : List Nat) (b : Nat) :
    l.foldl Nat.max b = Nat.max b (l.foldl Nat.max 0) := by
  induction l generalizing b with
  | nil => simp
  | cons a l ih =>
    show l.foldl Nat.max (Nat.max b a) = Nat.max b (l.foldl Nat.max (Nat.max 0 a))
    rw [ih (Nat.max b a), ih (Nat.max 0 a)]
    simp [Nat.max_assoc, Nat.zero_max]

theorem maxNat_cons (a : Nat) (l : List Nat) :
    maxNat (a :: l) = Nat.max a (maxNat l) := by
  show l.foldl Nat.max (Nat.max 0 a) = Nat.max a (maxNat l)
  rw [foldl_max_eq]
  simp [Nat.zero_max, maxNat]

theorem le_maxNat_of_mem {a : Nat} {l : List Nat} (h : a ∈ l) : a ≤ maxNat l := by
  induction l with
  | nil => simp at h
  | cons b l ih =>
    rw [maxNat_cons]
    rcases List.mem_cons.mp h with rfl | hm
    · exact Nat.le_max_left _ _
    · exact Nat.le_trans (ih hm) (Nat.le_max_right _ _)

theorem mem_enumFrom (i : Nat) (w : Int) (l : List Int) : ∀ (k : Nat),
    (i, w) ∈ enumFrom k l →
    k ≤ i ∧ i - k < l.length ∧ l.getD (i - k) 0 = w := by
  induction l with
  | nil => intro k h; simp [enumFrom] at h
  | cons w' l ih =>
    intro k h
    rcases List.mem_cons.mp h with h1 | h2
    · injection h1 with e1 e2
      subst e1
      subst e2
      simp
    · obtain ⟨h3, h4, h5⟩ := ih (k + 1) h2
      refine ⟨by omega, by simp; omega, ?_⟩
      have hx : i - k = (i - (k + 1)) + 1 := by omega
      rw [hx]
      simpa using h5

theorem last_mem_enumFrom (l : List Int) : ∀ (k : Nat), l ≠ [] →
    (k + (l.length - 1), pyLast l 0) ∈ enumFrom k l := by
  induction l with
  | nil => intro k h; exact absurd rfl h
  | cons w l ih =>
    intro k _
    by_cases hl : l = []
    · subst hl
      simp [enumFrom, pyLast]
    · have hm := ih (k + 1) hl
      have hp : 0 < l.length := List.length_pos.mpr hl
      have h1 : k + ((w :: l).length - 1) = (k + 1) + (l.length - 1) := by
        simp
        omega
      have h2 : pyLast (w :: l) 0 = pyLast l 0 := by
        unfold pyLast
        have hx : (w :: l).length - 1 = (l.length - 1) + 1 := by
          simp
          omega
        rw [hx]
        rfl
      rw [h1, h2]
      exact List.mem_cons_of_mem _ hm

theorem mem_insortDesc {x a : Nat × Int} (l : List (Nat × Int)) :
    x ∈ insortDesc a l ↔ x = a ∨ x ∈ l := by
  induction l with
  | nil => simp [insortDesc]
  | cons b l ih =>
    unfold insortDesc
    by_cases h : b.2 < a.2
    · simp [h]
    · simp [h, ih]
      tauto

theorem mem_sortAux {x : Nat × Int} (l : List (Nat × Int)) : ∀ (acc : List (Nat × Int)),
    (x ∈ l.foldl (fun acc a => insortDesc a acc) acc ↔ x ∈ acc ∨ x ∈ l) := by
  induction l with
  | nil => intro acc; simp
  | cons a l ih =>
    intro acc
    show x ∈ l.foldl _ (insortDesc a acc) ↔ _
    rw [ih (insortDesc a acc), mem_insortDesc]
    simp
    tauto

theorem mem_sortDesc {x : Nat × Int} (l : List (Nat × Int)) :
    x ∈ sortDesc l ↔ x ∈ l := by
  unfold sortDesc
  rw [mem_sortAux]
  simp

/-! ## Facts about the redistribution loop -/

theorem wideEnough_trunc (dots : String) (w : Int) (h : String) (nm : Nat) :
    wideEnough dots w h .TRUNCATED nm = .error .typeError := rfl

theorem wideEnough_error {dots : String} {w : Int} {h : String} {f : FormatSpec}
    {nm : Nat} {e : PyErr} (hw : wideEnough dots w h f nm = .error e) :
    e = .typeError := by
  cases f with
  | WRAPPED => simp [wideEnough] at hw
  | PREFORMATTED => simp [wideEnough] at hw
  | TRUNCATED =>
    rw [wideEnough_trunc] at hw
    injection hw with hh
    exact hh.symm

theorem scanCols_cons (ctx : RCtx) (pi : Nat) (pw : Int) (rest : List (Nat × Int)) :
    scanCols ctx ((pi, pw) :: rest) =
      match wideEnough ctx.dots pw (ctx.names.getD pi "")
          (ctx.fmts.getD pi .WRAPPED) (ctx.noms.getD pi 0) with
      | .error e => .error e
      | .ok true => .ok (some pi)
      | .ok false => scanCols ctx rest := rfl

theorem scanCols_ok_some {ctx : RCtx} {idx : Nat} (l : List (Nat × Int)) :
    scanCols ctx l = .ok (some idx) →
    ∃ w, (idx, w) ∈ l ∧
      wideEnough ctx.dots w (ctx.names.getD idx "") (ctx.fmts.getD idx .WRAPPED)
        (ctx.noms.getD idx 0) = .ok true := by
  induction l with
  | nil => intro h; simp [scanCols] at h
  | cons p rest ih =>
    obtain ⟨pi, pw⟩ := p
    intro h
    rw [scanCols_cons] at h
    rcases hw : wideEnough ctx.dots pw (ctx.names.getD pi "")
        (ctx.fmts.getD pi .WRAPPED) (ctx.noms.getD pi 0) with e | b
    · rw [hw] at h
      exact Except.noConfusion h
    · rw [hw] at h
      cases b with
      | false =>
        obtain ⟨w, hmem, hwide⟩ := ih h
        exact ⟨w, List.mem_cons_of_mem _ hmem, hwide⟩
      | true =>
        obtain rfl : pi = idx := Option.some.inj (Except.ok.inj h)
        exact ⟨pw, List.mem_cons_self _ _, hw⟩

theorem scanCols_ne_none {ctx : RCtx} {i : Nat} {w : Int} (l : List (Nat × Int)) :
    (i, w) ∈ l → ctx.fmts.getD i .WRAPPED = .TRUNCATED →
    scanCols ctx l ≠ .ok none := by
  induction l with
  | nil => intro hm; simp at hm
  | cons p rest ih =>
    obtain ⟨pi, pw⟩ := p
    intro hm hf h
    rw [scanCols_cons] at h
    rcases hw : wideEnough ctx.dots pw (ctx.names.getD pi "")
        (ctx.fmts.getD pi .WRAPPED) (ctx.noms.getD pi 0) with e | b
    · rw [hw] at h
      exact Except.noConfusion h
    · rw [hw] at h
      cases b with
      | true => exact Option.noConfusion (Except.ok.inj h)
      | false =>
        rcases List.mem_cons.mp hm with h1 | h2
        · injection h1 with e1 e2
          subst e1
          subst e2
          rw [hf, wideEnough_trunc] at hw
          exact Except.noConfusion hw
        · exact ih h2 hf h

theorem scanCols_error {ctx : RCtx} {e : PyErr} (l : List (Nat × Int)) :
    scanCols ctx l = .error e → e = .typeError := by
  induction l with
  | nil => intro h; simp [scanCols] at h
  | cons p rest ih =>
    obtain ⟨pi, pw⟩ := p
    intro h
    rw [scanCols_cons] at h
    rcases hw : wideEnough ctx.dots pw (ctx.names.getD pi "")
        (ctx.fmts.getD pi .WRAPPED) (ctx.noms.getD pi 0) with e' | b
    · rw [hw] at h
      obtain rfl : e' = e := Except.error.inj h
      exact wideEnough_error hw
    · rw [hw] at h
      cases b with
      | true => exact Except.noConfusion h
      | false => exact ih h

theorem loopCond_def (ctx : RCtx) (ws : List Int) :
    loopCond ctx ws =
      match nextReducible ctx ws with
      | .error e => .error e
      | .ok none => .ok none
      | .ok (some idx) =>
        match wideEnough ctx.dots (pyLast ws 0) (pyLast ctx.names "")
            (pyLast ctx.fmts .WRAPPED) (pyLast ctx.noms 0) with
        | .error e => .error e
        | .ok true => .ok none
        | .ok false => .ok (some idx) := rfl

theorem loopCond_some {ctx : RCtx} {ws : List Int} {idx : Nat}
    (hn : ctx.names.length = ws.length) (hf : ctx.fmts.length = ws.length)
    (hm : ctx.noms.length = ws.length)
    (h : loopCond ctx ws = .ok (some idx)) :
    idx < ws.length ∧ idx ≠ ws.length - 1 ∧
    wideEnough ctx.dots (pyLast ws 0) (pyLast ctx.names "")
      (pyLast ctx.fmts .WRAPPED) (pyLast ctx.noms 0) = .ok false := by
  rw [loopCond_def] at h
  rcases hnr : nextReducible ctx ws with e | r
  · rw [hnr] at h
    exact Except.noConfusion h
  · rw [hnr] at h
    cases r with
    | none => exact Option.noConfusion (Except.ok.inj h)
    | some j =>
      rcases hl : wideEnough ctx.dots (pyLast ws 0) (pyLast ctx.names "")
          (pyLast ctx.fmts .WRAPPED) (pyLast ctx.noms 0) with e | b
      · rw [hl] at h
        exact Except.noConfusion h
      · rw [hl] at h
        cases b with
        | true => exact Option.noConfusion (Except.ok.inj h)
        | false =>
          obtain rfl : j = idx := Option.some.inj (Except.ok.inj h)
          obtain ⟨w, hmem, hwide⟩ := scanCols_ok_some _ hnr
          have hen := (mem_sortDesc _).mp hmem
          obtain ⟨-, hlt, hget⟩ := mem_enumFrom j w ws 0 hen
          rw [Nat.sub_zero] at hlt hget
          refine ⟨hlt, ?_, rfl⟩
          intro heq
          have e1 : ctx.names.getD j "" = pyLast ctx.names "" := by
            unfold pyLast
            rw [hn, ← heq]
          have e2 : ctx.fmts.getD j .WRAPPED = pyLast ctx.fmts .WRAPPED := by
            unfold pyLast
            rw [hf, ← heq]
          have e3 : ctx.noms.getD j 0 = pyLast ctx.noms 0 := by
            unfold pyLast
            rw [hm, ← heq]
          have e4 : w = pyLast ws 0 := by
            unfold pyLast
            rw [← heq]
            exact hget.symm
          rw [e1, e2, e3, e4] at hwide
          rw [hwide] at hl
          exact Bool.noConfusion (Except.ok.inj hl)

theorem loopStep_length (ws : List Int) (idx : Nat) :
    (loopStep ws idx).length = ws.length := by
  simp [loopStep]

theorem pyLast_loopStep {ws : List Int} {idx : Nat} (h0 : ws ≠ [])
    (h : idx ≠ ws.length - 1) : pyLast (loopStep ws idx) 0 = pyLast ws 0 + 1 := by
  have hp : 0 < ws.length := List.length_pos.mpr h0
  have hlenA : (ws.set idx (ws.getD idx 0 - 1)).length = ws.length :=
    List.length_set ..
  have h1 : pyLast (ws.set idx (ws.getD idx 0 - 1)) 0 = pyLast ws 0 := by
    unfold pyLast
    rw [hlenA]
    exact getD_set_ne _ _ _ _ _ h
  show pyLast ((ws.set idx (ws.getD idx 0 - 1)).set
      ((ws.set idx (ws.getD idx 0 - 1)).length - 1)
      (pyLast (ws.set idx (ws.getD idx 0 - 1)) 0 + 1)) 0 = pyLast ws 0 + 1
  rw [h1]
  unfold pyLast
  simp only [List.length_set]
  exact getD_set_self _ _ _ _ (by rw [List.length_set]; omega)

theorem loopGo_isSome : ∀ (fuel : Nat) (ctx : RCtx) (ws : List Int),
    ctx.names.length = ws.length → ctx.fmts.length = ws.length →
    ctx.noms.length = ws.length →
    (lastFloor ctx - pyLast ws 0).toNat < fuel →
    (loopGo ctx fuel ws).isSome = true := by
  intro fuel
  induction fuel with
  | zero => intro ctx ws _ _ _ hμ; omega
  | succ fuel ih =>
    intro ctx ws hn hf hm hμ
    rcases hc : loopCond ctx ws with e | r
    · simp [loopGo, hc]
    · cases r with
      | none => simp [loopGo, hc]
      | some idx =>
        obtain ⟨hlt, hne, hwf⟩ := loopCond_some hn hf hm hc
        have hne2 : ws ≠ [] := by
          intro hh
          subst hh
          simp at hlt
        have hstep : pyLast (loopStep ws idx) 0 = pyLast ws 0 + 1 :=
          pyLast_loopStep hne2 hne
        have hfloor : pyLast ws 0 < lastFloor ctx := by
          rcases hfmt : pyLast ctx.fmts .WRAPPED with _ | _ | _
          · rw [hfmt] at hwf
            simp [wideEnough] at hwf
            simp only [lastFloor, hfmt]
            omega
          · rw [hfmt] at hwf
            simp [wideEnough] at hwf
            simp only [lastFloor, hfmt]
            omega
          · rw [hfmt, wideEnough_trunc] at hwf
            exact Except.noConfusion hwf
        simp only [loopGo, hc]
        apply ih
        · rw [loopStep_length]; exact hn
        · rw [loopStep_length]; exact hf
        · rw [loopStep_length]; exact hm
        · rw [hstep]; omega

theorem loopCond_error_of_last_trunc {ctx : RCtx} {ws : List Int}
    (hf : ctx.fmts.length = ws.length) (hne : ws ≠ [])
    (ht : pyLast ctx.fmts .WRAPPED = .TRUNCATED) :
    loopCond ctx ws = .error .typeError := by
  have hmem : (ws.length - 1, pyLast ws 0) ∈ enumFrom 0 ws := by
    have hm := last_mem_enumFrom ws 0 hne
    simpa using hm
  have hmem2 : (ws.length - 1, pyLast ws 0) ∈ sortDesc (enumFrom 0 ws) :=
    (mem_sortDesc _).mpr hmem
  have hfmt : ctx.fmts.getD (ws.length - 1) .WRAPPED = .TRUNCATED := by
    unfold pyLast at ht
    rw [hf] at ht
    exact ht
  rw [loopCond_def]
  unfold nextReducible
  rcases hs : scanCols ctx (sortDesc (enumFrom 0 ws)) with e | r
  · have he := scanCols_error _ hs
    subst he
    rfl
  · cases r with
    | none => exact absurd hs (scanCols_ne_none _ hmem2 hfmt)
    | some j =>
      rw [ht, wideEnough_trunc]

/-! ## Facts about the nominal width computation -/

theorem headD_eq_getD (r : List String) : r.headD "" = r.getD 0 "" := by
  cases r <;> rfl

theorem tail_getD (r : List String) (j : Nat) :
    r.tail.getD j "" = r.getD (j + 1) "" := by
  cases r <;> rfl

theorem mapCongr {α β} (l : List α) (f g : α → β) (h : ∀ a ∈ l, f a = g a) :
    l.map f = l.map g := by
  induction l with
  | nil => rfl
  | cons a l ih =>
    simp only [List.map_cons]
    rw [h a (List.mem_cons_self a l), ih (fun x hx => h x (List.mem_cons_of_mem a hx))]

theorem pyZipCols_eq (names : List String) : ∀ (data : List (List String)),
    (∀ r ∈ data, r.length = names.length) →
    pyZipCols names data =
      (List.range names.length).map
        (fun j => names.getD j "" :: data.map (fun r => r.getD j "")) := by
  induction names with
  | nil => intro data h; simp [pyZipCols]
  | cons h tl ih =>
    intro data hlen
    have hne : ¬ (data.any List.isEmpty = true) := by
      rw [List.any_eq_true]
      rintro ⟨r, hr, hemp⟩
      have hr' := hlen r hr
      rw [List.isEmpty_iff] at hemp
      subst hemp
      simp at hr'
    have htails : ∀ r ∈ data.map List.tail, r.length = tl.length := by
      intro r hr
      obtain ⟨r0, hr0, rfl⟩ := List.mem_map.mp hr
      have hl0 := hlen r0 hr0
      simp at hl0 ⊢
      omega
    show (if data.any List.isEmpty then []
      else (h :: data.map (fun r => r.headD "")) :: pyZipCols tl (data.map List.tail)) = _
    rw [if_neg hne]
    rw [ih (data.map List.tail) htails]
    simp only [List.length_cons]
    rw [List.range_succ_eq_map]
    simp only [List.map_cons, List.map_map]
    refine congrArg₂ List.cons ?_ ?_
    · refine congrArg (List.cons h) ?_
      exact mapCongr _ _ _ (fun r _ => headD_eq_getD r)
    · refine mapCongr _ _ _ (fun j _ => ?_)
      refine congrArg (List.cons (tl.getD j "")) ?_
      exact mapCongr _ _ _ (fun r _ => tail_getD r j)

theorem nominalWidths_eq (names : List String) (data : List (List String))
    (fmts : List FormatSpec) (preSep : String)
    (hd : ∀ r ∈ data, r.length = names.length)
    (hf : fmts.length = names.length) :
    nominalWidths names data fmts preSep =
      (List.range names.length).map (fun j =>
        colNominal (fmts.getD j .WRAPPED)
          (names.getD j "" :: data.map (fun r => r.getD j "")) preSep) := by
  unfold nominalWidths
  rw [pyZipCols_eq names data hd]
  apply List.ext_getElem
  · simp [hf]
  · intro i h1 h2
    simp only [List.getElem_map, List.getElem_zip, List.getElem_range]
    have hi : i < fmts.length := by
      simp at h2
      omega
    rw [getD_eq_getElem' fmts i .WRAPPED hi]

theorem nominalWidths_length (names : List String) (data : List (List String))
    (fmts : List FormatSpec) (preSep : String)
    (hd : ∀ r ∈ data, r.length = names.length)
    (hf : fmts.length = names.length) :
    (nominalWidths names data fmts preSep).length = names.length := by
  rw [nominalWidths_eq names data fmts preSep hd hf]
  simp

theorem header_le_nominal (names : List String) (data : List (List String))
    (fmts : List FormatSpec) (preSep : String)
    (hd : ∀ r ∈ data, r.length = names.length)
    (hf : fmts.length = names.length)
    (j : Nat) (hj : j < names.length)
    (hw : fmts.getD j .WRAPPED ≠ .PREFORMATTED) :
    (names.getD j "").length ≤ (nominalWidths names data fmts preSep).getD j 0 := by
  rw [nominalWidths_eq names data fmts preSep hd hf]
  rw [getD_eq_getElem' _ j 0 (by simpa using hj)]
  simp only [List.getElem_map, List.getElem_range]
  rcases hfmt : fmts.getD j .WRAPPED with _ | _ | _
  · exact absurd hfmt hw
  · simp only [colNominal, List.map_cons, maxNat_cons]
    exact Nat.le_max_left _ _
  · simp only [colNominal, List.map_cons, maxNat_cons]
    exact Nat.le_max_left _ _

theorem wideEnough_at_nominal (names : List String) (data : List (List String))
    (fmts : List FormatSpec) (preSep dots : String)
    (hd : ∀ r ∈ data, r.length = names.length)
    (hf : fmts.length = names.length)
    (j : Nat) (hj : j < names.length)
    (hnt : fmts.getD j .WRAPPED ≠ .TRUNCATED) :
    wideEnough dots (((nominalWidths names data fmts preSep).getD j 0 : Nat) : Int)
      (names.getD j "") (fmts.getD j .WRAPPED)
      ((nominalWidths names data fmts preSep).getD j 0) = .ok true := by
  rcases hfmt : fmts.getD j .WRAPPED with _ | _ | _
  · simp [wideEnough]
  · simp only [wideEnough]
    have hh := header_le_nominal names data fmts preSep hd hf j hj (by rw [hfmt]; simp)
    rw [Except.ok.injEq, decide_eq_true_eq]
    exact_mod_cast hh
  · exact absurd hfmt hnt

theorem loopGo_succ (ctx : RCtx) (fuel : Nat) (ws : List Int) :
    loopGo ctx (fuel + 1) ws =
      match loopCond ctx ws with
      | .error e => some (.error e)
      | .ok none => some (.ok ws)
      | .ok (some idx) => loopGo ctx fuel (loopStep ws idx) := rfl

theorem loopCond_exit_at_nominal (ctx : RCtx)
    (hn : ctx.names.length = ctx.noms.length)
    (hf : ctx.fmts.length = ctx.noms.length)
    (hall : ∀ j, j < ctx.noms.length →
      wideEnough ctx.dots ((ctx.noms.getD j 0 : Nat) : Int) (ctx.names.getD j "")
        (ctx.fmts.getD j .WRAPPED) (ctx.noms.getD j 0) = .ok true) :
    loopCond ctx (ctx.noms.map Int.ofNat) = .ok none := by
  rw [loopCond_def]
  unfold nextReducible
  rcases hsort : sortDesc (enumFrom 0 (ctx.noms.map Int.ofNat)) with _ | ⟨⟨pi, pw⟩, rest⟩
  · simp [scanCols]
  · have hmem : (pi, pw) ∈ sortDesc (enumFrom 0 (ctx.noms.map Int.ofNat)) := by
      rw [hsort]
      exact List.mem_cons_self _ _
    have hen := (mem_sortDesc _).mp hmem
    obtain ⟨-, hlt, hget⟩ := mem_enumFrom pi pw _ 0 hen
    rw [Nat.sub_zero] at hlt hget
    rw [List.length_map] at hlt
    rw [getD_map_ofNat] at hget
    have hw1 := hall pi hlt
    rw [hget] at hw1
    rw [scanCols_cons, hw1]
    have hlast : wideEnough ctx.dots (pyLast (ctx.noms.map Int.ofNat) 0)
        (pyLast ctx.names "") (pyLast ctx.fmts .WRAPPED)
        (pyLast ctx.noms 0) = .ok true := by
      unfold pyLast
      rw [List.length_map, getD_map_ofNat, hn, hf]
      exact hall (ctx.noms.length - 1) (by omega)
    rw [hlast]

theorem redistribute_noms (ctx : RCtx) (maxW : Int) (sepLen : Nat)
    (hn : ctx.names.length = ctx.noms.length)
    (hf : ctx.fmts.length = ctx.noms.length)
    (hne : ctx.noms ≠ [])
    (hall : ∀ j, j < ctx.noms.length →
      wideEnough ctx.dots ((ctx.noms.getD j 0 : Nat) : Int) (ctx.names.getD j "")
        (ctx.fmts.getD j .WRAPPED) (ctx.noms.getD j 0) = .ok true)
    (hbudget : totalNominal ctx.noms sepLen + ((sepLen : Int) - 1) ≤ maxW) :
    redistribute ctx maxW sepLen = .ok (ctx.noms.map Int.ofNat) := by
  have hlen : (ctx.noms.map Int.ofNat).length = ctx.noms.length := List.length_map ..
  have hpos : 0 < ctx.noms.length := List.length_pos.mpr hne
  have hmin : min (pyLast (ctx.noms.map Int.ofNat) 0)
      (maxW - (totalNominal ctx.noms sepLen - pyLast (ctx.noms.map Int.ofNat) 0)
        - ((sepLen : Int) - 1)) = pyLast (ctx.noms.map Int.ofNat) 0 := by
    apply min_eq_left
    omega
  have hset : (ctx.noms.map Int.ofNat).set ((ctx.noms.map Int.ofNat).length - 1)
      (pyLast (ctx.noms.map Int.ofNat) 0) = ctx.noms.map Int.ofNat :=
    set_getD_self _ _ _ (by rw [hlen]; omega)
  simp only [redistribute]
  rw [if_neg hne, hmin, hset]
  unfold loopBound
  rw [loopGo_succ, loopCond_exit_at_nominal ctx hn hf hall]

theorem redistribute_trunc_last (ctx : RCtx) (maxW : Int) (sepLen : Nat)
    (hf : ctx.fmts.length = ctx.noms.length) (hne : ctx.noms ≠ [])
    (ht : pyLast ctx.fmts .WRAPPED = .TRUNCATED) :
    redistribute ctx maxW sepLen = .error .typeError := by
  have hpos : 0 < ctx.noms.length := List.length_pos.mpr hne
  have hlen : ((ctx.noms.map Int.ofNat).set ((ctx.noms.map Int.ofNat).length - 1)
      (min (pyLast (ctx.noms.map Int.ofNat) 0)
        (maxW - (totalNominal ctx.noms sepLen - pyLast (ctx.noms.map Int.ofNat) 0)
          - ((sepLen : Int) - 1)))).length = ctx.noms.length := by
    rw [List.length_set, List.length_map]
  have hcond := @loopCond_error_of_last_trunc ctx
    ((ctx.noms.map Int.ofNat).set ((ctx.noms.map Int.ofNat).length - 1)
      (min (pyLast (ctx.noms.map Int.ofNat) 0)
        (maxW - (totalNominal ctx.noms sepLen - pyLast (ctx.noms.map Int.ofNat) 0)
          - ((sepLen : Int) - 1))))
    (by rw [hlen]; exact hf)
    (by
      intro hh
      have : ((ctx.noms.map Int.ofNat).set ((ctx.noms.map Int.ofNat).length - 1)
          (min (pyLast (ctx.noms.map Int.ofNat) 0)
            (maxW - (totalNominal ctx.noms sepLen - pyLast (ctx.noms.map Int.ofNat) 0)
              - ((sepLen : Int) - 1)))).length = 0 := by rw [hh]; rfl
      omega)
    ht
  simp only [redistribute]
  rw [if_neg hne]
  unfold loopBound
  rw [loopGo_succ, hcond]

/-! ## Table-level width resolution lemmas -/

theorem columnWidths_trunc_last (t : Table)
    (hd : ∀ r ∈ t.data, r.length = t.column_names.length)
    (hfl : t.format_spec.length = t.column_names.length)
    (hcache : t.column_widths_cache = [])
    (hne : t.format_spec ≠ [])
    (ht : pyLast t.format_spec .WRAPPED = .TRUNCATED) :
    columnWidthsFn t = .error .typeError := by
  have hnl : (nominalWidths t.column_names t.data t.format_spec t.preformat_sep).length
      = t.column_names.length :=
    nominalWidths_length _ _ _ _ hd hfl
  have hfpos : 0 < t.format_spec.length := List.length_pos.mpr hne
  have hnoms : nominalWidths t.column_names t.data t.format_spec t.preformat_sep ≠ [] := by
    intro hh
    rw [hh] at hnl
    simp at hnl
    omega
  unfold columnWidthsFn
  rw [if_pos hcache]
  exact redistribute_trunc_last (tableCtx t) t.max_width t.col_sep.length
    (by
      show t.format_spec.length =
        (nominalWidths t.column_names t.data t.format_spec t.preformat_sep).length
      rw [hnl, hfl])
    hnoms ht

theorem columnWidths_eq_nominal (t : Table)
    (hd : ∀ r ∈ t.data, r.length = t.column_names.length)
    (hfl : t.format_spec.length = t.column_names.length)
    (hcache : t.column_widths_cache = [])
    (hne : t.column_names ≠ [])
    (hnt : ∀ f ∈ t.format_spec, f ≠ .TRUNCATED)
    (hbudget : totalNominal
        (nominalWidths t.column_names t.data t.format_spec t.preformat_sep)
        t.col_sep.length + ((t.col_sep.length : Int) - 1) ≤ t.max_width) :
    columnWidthsFn t = .ok
      ((nominalWidths t.column_names t.data t.format_spec t.preformat_sep).map
        Int.ofNat) := by
  have hnl : (nominalWidths t.column_names t.data t.format_spec t.preformat_sep).length
      = t.column_names.length :=
    nominalWidths_length _ _ _ _ hd hfl
  have hpos : 0 < t.column_names.length := List.length_pos.mpr hne
  have hnoms : nominalWidths t.column_names t.data t.format_spec t.preformat_sep ≠ [] := by
    intro hh
    rw [hh] at hnl
    simp at hnl
    omega
  unfold columnWidthsFn
  rw [if_pos hcache]
  apply redistribute_noms (tableCtx t) t.max_width t.col_sep.length
  · show t.column_names.length =
      (nominalWidths t.column_names t.data t.format_spec t.preformat_sep).length
    rw [hnl]
  · show t.format_spec.length =
      (nominalWidths t.column_names t.data t.format_spec t.preformat_sep).length
    rw [hnl, hfl]
  · exact hnoms
  · intro j hj
    have hj' : j < t.column_names.length := by
      have hj2 : j <
          (nominalWidths t.column_names t.data t.format_spec t.preformat_sep).length := hj
      rw [hnl] at hj2
      exact hj2
    show wideEnough t.dots _ (t.column_names.getD j "") (t.format_spec.getD j .WRAPPED) _
      = .ok true
    apply wideEnough_at_nominal t.column_names t.data t.format_spec t.preformat_sep
      t.dots hd hfl j hj'
    exact hnt _ (getD_mem _ _ _ (by omega))
  · exact hbudget

/-! ## Row rendering lemmas -/

theorem linesForRow_not_ok_of_widths_error (t : Table) {e : PyErr}
    (he : columnWidthsFn t = .error e) (i : Int) (ls : List String) :
    linesForRowFn t i ≠ .ok ls := by
  by_cases hi : i < 0
  · simp [linesForRowFn, hi, he]
  · rcases hg : t.data[i.toNat]? with _ | v <;>
      simp [linesForRowFn, hi, hg, he]

theorem linesForRow_neg (t : Table) (i : Int) (hi : i < 0) :
    linesForRowFn t i = headersFn t := by
  simp [linesForRowFn, headersFn, hi]

theorem linesForRow_oob (t : Table) (i : Int) (hi : (t.data.length : Int) ≤ i) :
    linesForRowFn t i = .error .indexError := by
  have hi0 : ¬ i < 0 := by omega
  have hg : t.data[i.toNat]? = none := List.getElem?_eq_none (by omega)
  simp [linesForRowFn, hi0, hg]

theorem linesForRow_neg_underline (t : Table) (i : Int) (hi : i < 0)
    (ls : List String) (h : linesForRowFn t i = .ok ls) :
    ∃ ws core, columnWidthsFn t = .ok ws ∧ ls = core ++ [underlineLine t ws] := by
  unfold linesForRowFn at h
  rw [if_pos hi] at h
  rcases hw : columnWidthsFn t with e | ws
  · rw [hw] at h
    exact Except.noConfusion h
  · rw [hw] at h
    have h2 : (match rowCore t.column_names ws t.format_spec t.preformat_sep t.dots with
      | Except.error e => Except.error e
      | Except.ok segLines =>
        if i < 0 then
          Except.ok (segLines.map (String.intercalate t.col_sep) ++ [underlineLine t ws])
        else Except.ok (segLines.map (String.intercalate t.col_sep))) = Except.ok ls := h
    rcases hr : rowCore t.column_names ws t.format_spec t.preformat_sep t.dots
        with e | segLines
    · rw [hr] at h2
      exact Except.noConfusion h2
    · rw [hr] at h2
      have h3 : (if i < 0 then
          Except.ok (segLines.map (String.intercalate t.col_sep) ++ [underlineLine t ws])
        else Except.ok (segLines.map (String.intercalate t.col_sep))
          : Except PyErr (List String)) = Except.ok ls := h2
      rw [if_pos hi] at h3
      refine ⟨ws, segLines.map (String.intercalate t.col_sep), rfl, ?_⟩
      exact (Except.ok.inj h3).symm

theorem mapME_ok_mem {α β : Type} {f : α → Except PyErr β} : ∀ (l : List α)
    (out : List β), mapME f l = .ok out → ∀ b ∈ out, ∃ a ∈ l, f a = .ok b := by
  intro l
  induction l with
  | nil =>
    intro out h b hb
    simp [mapME] at h
    subst h
    simp at hb
  | cons a l ih =>
    intro out h b hb
    unfold mapME at h
    rcases ha : f a with e | b0
    · rw [ha] at h
      exact Except.noConfusion h
    · rw [ha] at h
      rcases hl : mapME f l with e | bs
      · rw [hl] at h
        exact Except.noConfusion h
      · rw [hl] at h
        obtain rfl : b0 :: bs = out := Except.ok.inj h
        rcases List.mem_cons.mp hb with rfl | hb2
        · exact ⟨a, List.mem_cons_self _ _, ha⟩
        · obtain ⟨a', ha', hfa⟩ := ih bs hl b hb2
          exact ⟨a', List.mem_cons_of_mem _ ha', hfa⟩

theorem pyFormatLJ_length {v : String} {w : Int} {s : String}
    (h : pyFormatLJ v w = .ok s) :
    0 ≤ w ∧ s.length = v.length + (w.toNat - v.length) := by
  unfold pyFormatLJ at h
  by_cases hw : w < 0
  · rw [if_pos hw] at h
    exact Except.noConfusion h
  · rw [if_neg hw] at h
    obtain rfl : v ++ String.mk (List.replicate (w.toNat - v.length) ' ') = s :=
      Except.ok.inj h
    constructor
    · omega
    · rw [String.length_append]
      show v.length + (List.replicate (w.toNat - v.length) ' ').length = _
      rw [List.length_replicate]

theorem padRow_width_le : ∀ (line : List String) (ws : List Int) (out : List String),
    padRow line ws = .ok out →
    ∀ p ∈ out.zip ws, p.2 ≤ (p.1.length : Int) := by
  intro line
  induction line with
  | nil =>
    intro ws out h p hp
    simp [padRow, mapME] at h
    subst h
    simp at hp
  | cons v line ih =>
    intro ws out h p hp
    cases ws with
    | nil =>
      simp [padRow, mapME] at h
      subst h
      simp at hp
    | cons w ws =>
      unfold padRow at h
      simp only [List.zip_cons_cons] at h
      unfold mapME at h
      rcases hv : pyFormatLJ v w with e | s
      · rw [hv] at h
        exact Except.noConfusion h
      · rw [hv] at h
        rcases hrest : mapME (fun p => pyFormatLJ p.1 p.2) (line.zip ws) with e | bs
        · rw [hrest] at h
          exact Except.noConfusion h
        · rw [hrest] at h
          obtain rfl : s :: bs = out := Except.ok.inj h
          rcases List.mem_cons.mp hp with rfl | hp2
          · obtain ⟨hw0, hlen⟩ := pyFormatLJ_length hv
            show w ≤ (s.length : Int)
            rw [hlen]
            omega
          · exact ih ws bs hrest p hp2

theorem rowCore_segs_ge (values : List String) (ws : List Int)
    (fmts : List FormatSpec) (preSep dots : String) (segs : List (List String))
    (h : rowCore values ws fmts preSep dots = .ok segs) :
    ∀ line ∈ segs, ∀ p ∈ line.zip ws, p.2 ≤ (p.1.length : Int) := by
  unfold rowCore at h
  rcases hc : mapME (fun p => formatCell p.2.2 p.1 p.2.1 preSep dots)
      (values.zip (ws.zip fmts)) with e | cols
  · rw [hc] at h
    exact Except.noConfusion h
  · rw [hc] at h
    intro line hline p hp
    obtain ⟨line0, _, hpad⟩ := mapME_ok_mem _ _ h line hline
    exact padRow_width_le line0 ws line hpad p hp

/-! ## The claims -/

/-- C1, counterexample. The claim says resolved widths equal nominal
widths whenever the total nominal width fits within the maximum, for
every separator and format combination. For two Wrapped columns "a",
"b" with separator ", " and maximum width 4, the total nominal width is
4 ≤ 4, yet the resolved widths are [0, 1], not the nominal [1, 1]: the
naive shrink subtracts an extra `len(col_sep) - 1` from the last
column's budget. -/
theorem c1_counterexample :
    nominalWidths sepTwoTable.column_names sepTwoTable.data
      sepTwoTable.format_spec sepTwoTable.preformat_sep = [1, 1] ∧
    totalNominal [1, 1] sepTwoTable.col_sep.length ≤ sepTwoTable.max_width ∧
    columnWidthsFn sepTwoTable = .ok [0, 1] ∧
    ([0, 1] : List Int) ≠ ([1, 1] : List Nat).map Int.ofNat :=
  ⟨rfl, by decide, rfl, by decide⟩

/-- C1, amended. For every table with at least one column, no Truncated
column, and total nominal width plus `len(col_sep) - 1` at most the
maximum width, the resolved column widths equal the nominal widths. -/
theorem c1_amended_no_shrink (t : Table)
    (hd : ∀ r ∈ t.data, r.length = t.column_names.length)
    (hfl : t.format_spec.length = t.column_names.length)
    (hcache : t.column_widths_cache = [])
    (hne : t.column_names ≠ [])
    (hnt : ∀ f ∈ t.format_spec, f ≠ .TRUNCATED)
    (hbudget : totalNominal
        (nominalWidths t.column_names t.data t.format_spec t.preformat_sep)
        t.col_sep.length + ((t.col_sep.length : Int) - 1) ≤ t.max_width) :
    columnWidthsFn t = .ok
      ((nominalWidths t.column_names t.data t.format_spec t.preformat_sep).map
        Int.ofNat) :=
  columnWidths_eq_nominal t hd hfl hcache hne hnt hbudget

/-- C1, witness for the amended theorem at a one-column Wrapped table
with header "ab" and budget 100. -/
theorem c1_amended_witness :
    columnWidthsFn headerIdxTable = .ok
      ((nominalWidths headerIdxTable.column_names headerIdxTable.data
        headerIdxTable.format_spec headerIdxTable.preformat_sep).map Int.ofNat) :=
  c1_amended_no_shrink headerIdxTable (by decide) (by decide) rfl (by decide)
    (by decide) (by decide)

/-- C2. The claim (and the spec) require every resolved width to be a
non-negative integer, with the naive last-column shrink clamped at
zero. The code has no clamp: for headers "ab", "cd", no data rows and
maximum width 1, the computed column widths are [1, -1], containing the
negative entry -1. -/
theorem c2_negative_width :
    columnWidthsFn negWidthTable = .ok [1, -1] ∧ (-1 : Int) < 0 :=
  ⟨rfl, by decide⟩

/-- C3. The redistribution loop always halts: with the explicitly
computed fuel `loopBound` (one more than the distance from the last
column's width to its floor) the fuel-indexed loop never runs out, for
every context and every width state of matching lengths. Each iteration
either stops (sentinel "none reducible", last column wide enough, or a
raised exception) or moves the last column's width one step closer to
its fixed floor. -/
theorem c3_loop_terminates (ctx : RCtx) (ws : List Int)
    (hn : ctx.names.length = ws.length) (hf : ctx.fmts.length = ws.length)
    (hm : ctx.noms.length = ws.length) :
    (loopGo ctx (loopBound ctx ws) ws).isSome = true :=
  loopGo_isSome (loopBound ctx ws) ctx ws hn hf hm (by unfold loopBound; omega)

/-- C3, witness at a concrete one-column context and width state. -/
theorem c3_loop_terminates_witness :
    (loopGo smallCtx (loopBound smallCtx [5]) [5]).isSome = true :=
  c3_loop_terminates smallCtx [5] rfl rfl rfl

/-- C4. The claim says a Truncated column is judged wide enough exactly
when its width reaches `max(len(header), len(dots) + 3)`, evaluated
without failure. The code instead evaluates `len(self._dots + 3)`,
concatenating a string with the integer 3, so the check raises
`TypeError` on every Truncated column it examines — here at width 10,
header "hdr", nominal width 5, where the documented check would return
True (10 ≥ max(3, 6)). -/
theorem c4_truncated_check_raises :
    wideEnough "..." 10 "hdr" .TRUNCATED 5 = .error .typeError := rfl

/-- C5, counterexample. The claim says a Truncated column of resolved
width w renders an overlong value as a single line of length exactly w.
With the width of a Truncated column overridden to 1 (ellipsis "...",
value "abcdef"), the slice bound `width - len(dots)` is negative, and
the rendered line is "abcd..." of length 7 ≠ 1. -/
theorem c5_counterexample :
    columnWidthsFn overrideTruncTable = .ok [1] ∧
    linesForRowFn overrideTruncTable 0 = .ok ["abcd..."] ∧
    ("abcd..." : String).length ≠ 1 :=
  ⟨rfl, rfl, by decide⟩

/-- C5, amended. For a Truncated column of width w with w at least the
ellipsis length, an overlong value renders as a single line that is a
prefix of the value followed by the ellipsis, of length exactly w; a
value of length at most w is output unchanged as a single line (for any
w). -/
theorem c5_amended_truncation (val preSep dots : String) (w : Int) :
    ((val.length : Int) > w → (dots.length : Int) ≤ w →
      ∃ p, formatCell .TRUNCATED val w preSep dots = .ok [p ++ dots] ∧
        ((p ++ dots).length : Int) = w) ∧
    ((val.length : Int) ≤ w → formatCell .TRUNCATED val w preSep dots = .ok [val]) := by
  constructor
  · intro hlong hdots
    refine ⟨pySliceTo val (w - (dots.length : Int)), ?_, ?_⟩
    · show (if (val.length : Int) > w then _ else _ : Except PyErr (List String)) = _
      rw [if_pos hlong]
    · have hvl : val.data.length = val.length := rfl
      have hslice : pySliceTo val (w - (dots.length : Int)) =
          String.mk (val.data.take ((w - (dots.length : Int)).toNat)) := by
        unfold pySliceTo
        rw [if_neg (by omega)]
      rw [hslice, String.length_append]
      show (((val.data.take ((w - (dots.length : Int)).toNat)).length + dots.length
        : Nat) : Int) = w
      rw [List.length_take, min_eq_left (by omega)]
      omega
  · intro hshort
    show (if (val.length : Int) > w then _ else _ : Except PyErr (List String)) = _
    rw [if_neg (by omega)]

/-- C5, witness: value "Alexandria" in a Truncated column of width 5
with ellipsis "..." renders as "Al..." (length 5), and the short value
"Al" is passed through unchanged. -/
theorem c5_amended_truncation_witness :
    (∃ p, formatCell .TRUNCATED "Alexandria" 5 ", " "..." = .ok [p ++ "..."] ∧
      ((p ++ "...").length : Int) = 5) ∧
    formatCell .TRUNCATED "Al" 5 ", " "..." = .ok ["Al"] :=
  ⟨(c5_amended_truncation "Alexandria" ", " "..." 5).1 (by decide) (by decide),
    (c5_amended_truncation "Al" ", " "..." 5).2 (by decide)⟩

/-- C6, counterexample. The claim says every rendered line's column
segment has length exactly the column's resolved width. For two
Preformatted columns where redistribution shrinks the first column to
width 4 below its literal segment "xxxxx", the rendered line is
"xxxxx yy": the first segment keeps length 5 ≠ 4, because the
left-justify format never truncates. -/
theorem c6_counterexample :
    columnWidthsFn preOverflowTable = .ok [4, 1] ∧
    rowCore ["xxxxx", "yy"] [4, 1] [.PREFORMATTED, .PREFORMATTED] ", " "..." =
      .ok [["xxxxx", "yy"]] ∧
    linesForRowFn preOverflowTable 0 = .ok ["xxxxx yy"] ∧
    ("xxxxx" : String).length ≠ 4 :=
  ⟨rfl, rfl, rfl, by decide⟩

/-- C6, amended. Every rendered segment is the cell text left-justified
to the column's resolved width: its length is at least the width, and
exactly the width whenever the text fits within it (Preformatted
segments longer than the width overflow instead of being cut). -/
theorem c6_amended_segment_widths :
    (∀ (values : List String) (ws : List Int) (fmts : List FormatSpec)
        (preSep dots : String) (segs : List (List String)),
      rowCore values ws fmts preSep dots = .ok segs →
      ∀ line ∈ segs, ∀ p ∈ line.zip ws, p.2 ≤ (p.1.length : Int)) ∧
    (∀ (v s : String) (w : Int), pyFormatLJ v w = .ok s →
      w ≤ (s.length : Int) ∧ ((v.length : Int) ≤ w → (s.length : Int) = w)) := by
  constructor
  · exact rowCore_segs_ge
  · intro v s w h
    obtain ⟨hw0, hlen⟩ := pyFormatLJ_length h
    constructor
    · omega
    · intro hfit
      omega

/-- C6, witness: in the overflow row the first segment of width 4 has
length 5 ≥ 4, and a fitting cell "ab" padded to width 4 has length
exactly 4. -/
theorem c6_amended_segment_widths_witness :
    (4 : Int) ≤ (("xxxxx" : String).length : Int) ∧
    ((("ab  " : String).length : Int) = 4) :=
  ⟨c6_amended_segment_widths.1 ["xxxxx", "yy"] [4, 1]
      [.PREFORMATTED, .PREFORMATTED] ", " "..." [["xxxxx", "yy"]] rfl
      ["xxxxx", "yy"] (by decide) ("xxxxx", 4) (by decide),
    (c6_amended_segment_widths.2 "ab" "ab  " 4 rfl).2 (by decide)⟩

/-- C7, counterexample. The claim says a Preformatted column's nominal
width is the maximum of the header's full length and the longest value
segment. For header "a, b" (length 4) with value "xx", the code splits
the header too and computes 2, while the claim's formula gives 4. -/
theorem c7_counterexample :
    nominalWidths ["a, b"] [["xx"]] [.PREFORMATTED] ", " = [2] ∧
    claimNominalWidths ["a, b"] [["xx"]] [.PREFORMATTED] ", " = [4] ∧
    ([2] : List Nat) ≠ [4] :=
  ⟨rfl, rfl, by decide⟩

/-- C7, amended. The nominal width of a column is the maximum of header
length and longest raw value for Wrapped/Truncated columns; for a
Preformatted column it is the longest segment obtained by splitting the
header and every value on the preformat separator — the header is split
exactly like the values. -/
theorem c7_amended_nominal (names : List String) (data : List (List String))
    (fmts : List FormatSpec) (preSep : String)
    (hd : ∀ r ∈ data, r.length = names.length)
    (hf : fmts.length = names.length) :
    nominalWidths names data fmts preSep = splitNominalWidths names data fmts preSep := by
  rw [nominalWidths_eq names data fmts preSep hd hf]
  unfold splitNominalWidths
  apply mapCongr
  intro j _
  rcases hfmt : fmts.getD j .WRAPPED with _ | _ | _
  · rfl
  · show colNominal .WRAPPED _ preSep = _
    simp only [colNominal, List.map_cons, maxNat_cons]
  · show colNominal .TRUNCATED _ preSep = _
    simp only [colNominal, List.map_cons, maxNat_cons]

/-- C7, witness for the amended theorem at the header-with-separator
table. -/
theorem c7_amended_nominal_witness :
    nominalWidths ["a, b"] [["xx"]] [.PREFORMATTED] ", " =
      splitNominalWidths ["a, b"] [["xx"]] [.PREFORMATTED] ", " :=
  c7_amended_nominal ["a, b"] [["xx"]] [.PREFORMATTED] ", " (by decide) (by decide)

/-- C8, counterexample. The claim says a max width of 0 is rejected at
construction and never silently replaced by the default. But `not 0` is
true in Python, so `max_width=0` passes the assert
`(not max_width) or (max_width > 0)` and the assignment
`max_width or min(100, terminal)` replaces it by the default: with a
terminal 80 columns wide, construction succeeds and the instance's
maximum width is 80. -/
theorem c8_counterexample :
    initTable ["a"] [] none none none (some 0) none none 80 =
      .ok { column_names := ["a"]
            data := []
            head_underline := " "
            col_sep := " "
            format_spec := [.WRAPPED]
            max_width := 80
            preformat_sep := ", "
            dots := "..."
            column_widths_cache := [] } := rfl

/-- C8, amended. Construction with a negative max width fails with
`AssertionError` (the other asserts passing); construction with max
width 0 succeeds and silently replaces it by the default
`min(100, terminal width)`. -/
theorem c8_amended_maxwidth (column_names : List String) (data : List (List String))
    (head_underline col_sep format_str : Option String)
    (preformat_sep dots : Option String) (termCols : Nat)
    (h1 : ∀ r ∈ data, r.length = column_names.length)
    (h2 : strFalsy format_str = true ∨
      (format_str.getD "").length = column_names.length)
    (h3 : strFalsy format_str = true ∨
      ∀ c ∈ (format_str.getD "").data, (FormatSpec.ofChar c).isSome = true)
    (h4 : strFalsy head_underline = true ∨ (head_underline.getD "").length = 1) :
    (∀ m : Int, m < 0 →
      initTable column_names data head_underline col_sep format_str (some m)
        preformat_sep dots termCols = .error .assertionError) ∧
    (∃ t, initTable column_names data head_underline col_sep format_str (some 0)
        preformat_sep dots termCols = .ok t ∧
      t.max_width = min 100 (termCols : Int)) := by
  constructor
  · intro m hm
    unfold initTable
    rw [if_neg (not_not_intro h1), if_neg (not_not_intro h2),
      if_neg (not_not_intro h3), if_neg (not_not_intro h4)]
    rw [if_pos]
    intro hc
    rcases hc with (hc | hc) | ⟨m2, hm2, hpos⟩
    · exact Option.noConfusion hc
    · have hz : m = 0 := Option.some.inj hc
      omega
    · have hz : m = m2 := Option.some.inj hm2
      omega
  · unfold initTable
    rw [if_neg (not_not_intro h1), if_neg (not_not_intro h2),
      if_neg (not_not_intro h3), if_neg (not_not_intro h4)]
    rw [if_neg (not_not_intro (Or.inl (Or.inr rfl)))]
    exact ⟨_, rfl, rfl⟩

/-- C8, witness: with valid other arguments and terminal width 80, a
max width of -3 is rejected with an assertion error while 0 yields a
usable instance whose max width is the default 80. -/
theorem c8_amended_maxwidth_witness :
    initTable ["a"] [] none none none (some (-3)) none none 80 =
      .error .assertionError ∧
    (∃ t, initTable ["a"] [] none none none (some 0) none none 80 = .ok t ∧
      t.max_width = min 100 (80 : Int)) :=
  ⟨(c8_amended_maxwidth ["a"] [] none none none none none 80 (by decide)
      (by decide) (by decide) (by decide)).1 (-3) (by decide),
    (c8_amended_maxwidth ["a"] [] none none none none none 80 (by decide)
      (by decide) (by decide) (by decide)).2⟩

/-- C9. For every well-formed table whose last column's format mode is
Truncated and whose widths are not overridden, the first computation of
column widths raises `TypeError` (the Truncated floor check evaluates
`len(self._dots + 3)`), and consequently no render of the table
succeeds. -/
theorem c9_truncated_last (t : Table)
    (hd : ∀ r ∈ t.data, r.length = t.column_names.length)
    (hfl : t.format_spec.length = t.column_names.length)
    (hcache : t.column_widths_cache = [])
    (hne : t.format_spec ≠ [])
    (ht : pyLast t.format_spec .WRAPPED = .TRUNCATED) :
    columnWidthsFn t = .error .typeError ∧
    ∀ (i : Int) (ls : List String), linesForRowFn t i ≠ .ok ls := by
  have hw := columnWidths_trunc_last t hd hfl hcache hne ht
  exact ⟨hw, fun i ls => linesForRow_not_ok_of_widths_error t hw i ls⟩

/-- C9, witness at a one-column Truncated table: width computation
raises TypeError and rendering row 0 cannot succeed. -/
theorem c9_truncated_last_witness :
    columnWidthsFn truncLastTable = .error .typeError ∧
    linesForRowFn truncLastTable 0 ≠ .ok ["h"] :=
  ⟨(c9_truncated_last truncLastTable (by decide) (by decide) rfl (by decide)
      (by decide)).1,
    (c9_truncated_last truncLastTable (by decide) (by decide) rfl (by decide)
      (by decide)).2 0 ["h"]⟩

/-- C10. For every table, every negative index returns exactly what
`headers()` returns (the rendered header lines; on success the final
line is the underline line), never an index error; and every index at
least the row count raises the index-out-of-bounds error, before any
width computation. -/
theorem c10_negative_index (t : Table) (i : Int) :
    (i < 0 → linesForRowFn t i = headersFn t) ∧
    ((t.data.length : Int) ≤ i → linesForRowFn t i = .error .indexError) ∧
    (i < 0 → ∀ ls, linesForRowFn t i = .ok ls →
      ∃ ws core, columnWidthsFn t = .ok ws ∧ ls = core ++ [underlineLine t ws]) :=
  ⟨linesForRow_neg t i, linesForRow_oob t i,
    fun hi ls h => linesForRow_neg_underline t i hi ls h⟩

/-- C10, witness: on a one-column table, index -2 renders the headers
and index 5 (≥ 1 row) raises the index error. -/
theorem c10_negative_index_witness :
    linesForRowFn headerIdxTable (-2) = headersFn headerIdxTable ∧
    linesForRowFn headerIdxTable 5 = .error .indexError :=
  ⟨(c10_negative_index headerIdxTable (-2)).1 (by decide),
    (c10_negative_index headerIdxTable 5).2.1 (by decide)⟩

end PyTable
